import Mathlib

/-!
Shallow embedding of the `RngGetAndUpdateStatePattern` lowering from
`tensorflow/compiler/mlir/hlo/lib/Dialect/mhlo/transforms/hlo_legalize_to_arithmetic.cc`.

The pattern lowers one `mhlo.xla_rng_get_and_update_state` op:
 * find-or-create a module-level `memref.global` named `"rng_state"`
   (private, `i128`, initial value `0x7012395`), inserted at the start of
   the module's symbol table region;
 * emit `memref.get_global`, `memref.load` (the old counter value),
   `arith.constant` (the delta, passed through `static_cast<int64_t>` in
   the source; `getIntegerAttr` on the signless `i128` zero-extends the
   64-bit pattern to 128 bits),
   `arith.addi` (wraparound 128-bit addition), `memref.store`;
 * slice the old value into `numElements` pieces of `wordSize` bits each,
   most-significant chunk first (`arith.shrui` then `arith.trunci`);
 * build a tensor from the pieces and replace the op, returning `success()`.

The embedding keeps the module's symbol table (a list of symbols, newest
first after `setInsertionPointToStart`), threads the runtime contents of
the `rng_state` storage through the emitted load/add/store sequence, and
records the emitted instruction trace so ordering claims can be stated.
The `assert(isa<memref::GlobalOp>(globalOp))` in the source is modelled as
the `none` outcome: the debug-build abort when a symbol named `rng_state`
exists but is not a `memref.global`.
-/

namespace HloToArith

/-- Counter bit width: `rewriter.getIntegerType(128)` in the source. -/
def W : Nat := 128

/-- `constexpr auto initialSeed = 0x7012395ull;` in the source. -/
def initialSeed : Nat := 0x7012395

/-- A `memref.global` definition as created by the pattern: symbol name,
visibility string, integer bit width of the scalar element, and the
initial value attribute. -/
structure GlobalDef where
  name : String
  visibility : String
  width : Nat
  initialValue : Nat
  deriving Repr, DecidableEq

/-- A module-level symbol: either a `memref.global`, or some other kind of
operation that carries a symbol name. -/
inductive Symbol where
  | globalOp (g : GlobalDef)
  | otherSym (name : String)
  deriving Repr, DecidableEq

/-- The symbol name an operation is registered under. -/
def Symbol.name : Symbol → String
  | .globalOp g => g.name
  | .otherSym n => n

/-- The module: its top-level symbol table, in lexical order. The pattern's
`setInsertionPointToStart` inserts at the head of this list. -/
structure Module where
  symbols : List Symbol
  deriving Repr, DecidableEq

/-- `mlir::SymbolTable::lookupNearestSymbolFrom(op, globalName)`:
the first symbol of the enclosing module with the given name, if any. -/
def lookupNearestSymbolFrom (m : Module) (nm : String) : Option Symbol :=
  m.symbols.find? (fun s => s.name == nm)

/-- The global the pattern creates when the lookup finds nothing:
`rewriter.create<memref::GlobalOp>(loc, globalName, priv, memrefType,
initialValue, false, IntegerAttr())`. -/
def rngGlobal : GlobalDef :=
  { name := "rng_state", visibility := "private", width := W,
    initialValue := initialSeed }

/-- One matched `xla_rng_get_and_update_state` op, as the pattern reads it:
`delta` is `static_cast<int64_t>(adaptor.delta())` — an `int64_t` value by
the cast in the source — and `numElements`/`wordSize` come from the result
type (`resultType.getNumElements()` and
`resultType.getElementType().getIntOrFloatBitWidth()`). -/
structure Request where
  delta : Int
  numElements : Nat
  wordSize : Nat
  deriving Repr, DecidableEq

/-- The kinds of operations the pattern emits, in the order it emits them. -/
inductive Op where
  | getGlobal (nm : String)
  | load
  | constOp (width : Nat) (value : Nat)
  | addI
  | store
  | shrUI
  | truncI (width : Nat)
  | fromElements (n : Nat)
  | unrealizedCast
  deriving Repr, DecidableEq

/-- `mlir::LogicalResult`. -/
inductive LogicalResult where
  | success
  | failure
  deriving Repr, DecidableEq

/-- `rewriter.getIntegerAttr(seedType, static_cast<int64_t>(adaptor.delta()))`:
`seedType` is the signless `i128` from `getIntegerType(128)`, and
`getIntegerAttr(Type, int64_t)` builds
`APInt(width, value, isSigned = type.isSignedInteger())`, which is false
for a signless type — so the `int64_t` value's 64-bit pattern is
zero-extended into the 128-bit attribute. The unsigned 128-bit constant is
therefore `delta mod 2^64`: `delta` itself when `0 ≤ delta < 2^63`, and
`delta + 2^64` when `delta` is negative. -/
def materializeDelta (delta : Int) : Nat :=
  (delta % (2 ^ 64 : Int)).toNat

/-- The integer a 128-bit pattern denotes under two's complement. -/
def toSigned128 (n : Nat) : Int :=
  if n < 2 ^ 127 then (n : Int) else (n : Int) - 2 ^ W

/-- The packing loop
`for (int i = (numElements - 1) * wordSize; i >= 0; i -= wordSize)`:
each iteration emits `arith.shrui oldVal, i` then `arith.trunci` to
`wordSize` bits and appends the piece. The recursion is on the number of
remaining iterations; the head piece is the one for `i = (n - 1) *
wordSize` (most-significant chunk first). For `wordSize = 0` the C++ loop
would not terminate; no claim concerns that degenerate width. -/
def pack (value : Nat) : Nat → Nat → List Nat
  | 0, _ => []
  | n + 1, w => (value >>> (n * w)) % 2 ^ w :: pack value n w

/-- The ops emitted by the packing loop, in emission order: per iteration a
shift-distance constant, the shift, and the truncation. -/
def packTrace : Nat → Nat → List Op
  | 0, _ => []
  | n + 1, w => Op.constOp W (n * w) :: Op.shrUI :: Op.truncI w :: packTrace n w

/-- The lowering's inputs that vary per call: the module the op lives in and
the runtime contents of the `rng_state` storage at the point the emitted
load executes. -/
structure LoweredState where
  module : Module
  counter : Nat
  deriving Repr, DecidableEq

/-- Result of one completed `matchAndRewrite`: the returned
`LogicalResult`, the rewritten module, the storage contents after the
emitted store executes, the SSA value `oldVal` the pieces are sliced from,
the piece values that replace the op's result, and the emitted ops in
order. -/
structure Lowered where
  result : LogicalResult
  module : Module
  counter : Nat
  oldVal : Nat
  returned : List Nat
  trace : List Op
  deriving Repr, DecidableEq

/-- The straight-line body after the global is in hand: `memref.get_global`,
`memref.load`, the delta constant, `arith.addi` (wraparound mod `2^128`),
`memref.store`, the packing loop, `tensor.from_elements`, and the final
`UnrealizedConversionCastOp`. -/
def emitBody (m : Module) (counter0 : Nat) (req : Request) : Lowered :=
  let oldVal := counter0
  let delta := materializeDelta req.delta
  let newVal := (oldVal + delta) % 2 ^ W
  let pieces := pack oldVal req.numElements req.wordSize
  { result := .success
    module := m
    counter := newVal
    oldVal := oldVal
    returned := pieces
    trace := [Op.getGlobal "rng_state", Op.load, Op.constOp W delta,
              Op.addI, Op.store]
             ++ packTrace req.numElements req.wordSize
             ++ [Op.fromElements req.numElements, Op.unrealizedCast] }

/-- `RngGetAndUpdateStatePattern::matchAndRewrite`. The symbol lookup comes
first; if nothing named `rng_state` exists, the global is created at the
start of the module; if the symbol exists but is not a `memref.global`,
the `assert` aborts (modelled as `none`). Otherwise the body is emitted
and the function returns `success()`. -/
def matchAndRewrite (st : LoweredState) (req : Request) : Option Lowered :=
  match lookupNearestSymbolFrom st.module "rng_state" with
  | some (Symbol.otherSym _) => none
  | some (Symbol.globalOp _) => some (emitBody st.module st.counter req)
  | none =>
      some (emitBody { symbols := Symbol.globalOp rngGlobal :: st.module.symbols }
              st.counter req)

/-- Sequential application of the pattern to a list of matched ops, the way
the partial conversion driver applies it one op at a time, threading the
module and the storage contents. -/
def lowerAll (st : LoweredState) : List Request → Option LoweredState
  | [] => some st
  | r :: rs =>
      match matchAndRewrite st r with
      | none => none
      | some ld => lowerAll { module := ld.module, counter := ld.counter } rs

/-- How many symbols named `rng_state` the module holds. -/
def countRng (m : Module) : Nat :=
  (m.symbols.filter (fun s => s.name == "rng_state")).length

/-- The module invariant the `assert` checks: any symbol named `rng_state`
is a `memref.global`. -/
def rngConsistent (m : Module) : Prop :=
  lookupNearestSymbolFrom m "rng_state" = none ∨
    ∃ g, lookupNearestSymbolFrom m "rng_state" = some (Symbol.globalOp g)

/-- The module after the pattern's create step: the new global is inserted
at the start of the module's only region (`setInsertionPointToStart`). -/
def withRng (m : Module) : Module :=
  { symbols := Symbol.globalOp rngGlobal :: m.symbols }

/-- After the first lowering the module is expected to satisfy this: the
lookup finds the created global and it is the only `rng_state` symbol. -/
def rngSingleton (m : Module) : Prop :=
  lookupNearestSymbolFrom m "rng_state" = some (Symbol.globalOp rngGlobal) ∧
    countRng m = 1

/-- Most-significant-first concatenation of pieces of width `w` (the spec's
reading of the packed output as one integer). -/
def concatMSF (w : Nat) (pieces : List Nat) : Nat :=
  pieces.foldl (fun acc p => acc * 2 ^ w + p) 0

theorem pack_length (value n w : Nat) : (pack value n w).length = n := by
  induction n with
  | zero => rfl
  | succ n ih => simp [pack, ih]

theorem pack_getElem? (value w : Nat) :
    ∀ (n j : Nat), j < n →
      (pack value n w)[j]? = some ((value >>> ((n - 1 - j) * w)) % 2 ^ w) := by
  intro n
  induction n with
  | zero => intro j h; exact absurd h (Nat.not_lt_zero j)
  | succ n ih =>
    intro j hj
    cases j with
    | zero => simp [pack]
    | succ j =>
      have hj' : j < n := by omega
      have harg : n + 1 - 1 - (j + 1) = n - 1 - j := by omega
      simp only [pack, List.getElem?_cons_succ, harg]
      exact ih j hj'

theorem mod_pow_split (value n w : Nat) :
    value % 2 ^ ((n + 1) * w)
      = value / 2 ^ (n * w) % 2 ^ w * 2 ^ (n * w) + value % 2 ^ (n * w) := by
  have hpow : (2 : Nat) ^ ((n + 1) * w) = 2 ^ (n * w) * 2 ^ w := by
    rw [← pow_add]
    ring_nf
  have h2 : value % (2 ^ (n * w) * 2 ^ w) / 2 ^ (n * w)
      = value / 2 ^ (n * w) % 2 ^ w :=
    Nat.mod_mul_right_div_self value _ _
  have h3 : value % (2 ^ (n * w) * 2 ^ w) % 2 ^ (n * w) = value % 2 ^ (n * w) :=
    Nat.mod_mod_of_dvd value (dvd_mul_right _ _)
  rw [hpow, ← h2, ← h3]
  exact (Nat.div_add_mod' _ _).symm

theorem pack_foldl (value w : Nat) :
    ∀ (n : Nat) (acc : Nat),
      (pack value n w).foldl (fun a p => a * 2 ^ w + p) acc
        = acc * 2 ^ (n * w) + value % 2 ^ (n * w) := by
  intro n
  induction n with
  | zero => intro acc; simp [pack, Nat.mod_one]
  | succ n ih =>
    intro acc
    simp only [pack, List.foldl_cons, ih]
    rw [Nat.shiftRight_eq_div_pow, mod_pow_split value n w,
      show (n + 1) * w = n * w + w from by ring, pow_add]
    ring

theorem concatMSF_pack (value n w : Nat) :
    concatMSF w (pack value n w) = value % 2 ^ (n * w) := by
  unfold concatMSF
  rw [pack_foldl value w n 0]
  ring

theorem pack_congr (w : Nat) :
    ∀ (n v1 v2 : Nat), v1 % 2 ^ (n * w) = v2 % 2 ^ (n * w) →
      pack v1 n w = pack v2 n w := by
  intro n
  induction n with
  | zero => intro v1 v2 _; rfl
  | succ n ih =>
    intro v1 v2 h
    have hpow : (2 : Nat) ^ ((n + 1) * w) = 2 ^ (n * w) * 2 ^ w := by
      rw [← pow_add]
      ring_nf
    have hhead : v1 / 2 ^ (n * w) % 2 ^ w = v2 / 2 ^ (n * w) % 2 ^ w := by
      rw [← Nat.mod_mul_right_div_self v1, ← Nat.mod_mul_right_div_self v2,
        ← hpow, h]
    have hdvd : (2 : Nat) ^ (n * w) ∣ 2 ^ ((n + 1) * w) :=
      pow_dvd_pow 2 (Nat.mul_le_mul_right w (Nat.le_succ n))
    have htail : v1 % 2 ^ (n * w) = v2 % 2 ^ (n * w) := by
      rw [← Nat.mod_mod_of_dvd v1 hdvd, ← Nat.mod_mod_of_dvd v2 hdvd, h]
    simp only [pack, Nat.shiftRight_eq_div_pow, hhead, ih _ _ htail]

theorem lookup_eq_none_of_countRng_zero (m : Module) (h : countRng m = 0) :
    lookupNearestSymbolFrom m "rng_state" = none := by
  unfold countRng at h
  rw [List.length_eq_zero] at h
  unfold lookupNearestSymbolFrom
  rw [List.find?_eq_none]
  intro s hs hpred
  have hmem : s ∈ m.symbols.filter (fun s => s.name == "rng_state") :=
    List.mem_filter.mpr ⟨hs, hpred⟩
  rw [h] at hmem
  exact absurd hmem (List.not_mem_nil s)

theorem lookup_withRng (m : Module) :
    lookupNearestSymbolFrom (withRng m) "rng_state"
      = some (Symbol.globalOp rngGlobal) :=
  List.find?_cons_of_pos _ rfl

theorem countRng_withRng (m : Module) :
    countRng (withRng m) = countRng m + 1 := by
  unfold countRng withRng
  rw [List.filter_cons_of_pos rfl, List.length_cons]

theorem rngSingleton_withRng (m : Module) (h : countRng m = 0) :
    rngSingleton (withRng m) :=
  ⟨lookup_withRng m, by rw [countRng_withRng, h]⟩

theorem matchAndRewrite_of_singleton (m : Module) (hm : rngSingleton m)
    (c : Nat) (req : Request) :
    matchAndRewrite ⟨m, c⟩ req = some (emitBody m c req) := by
  unfold matchAndRewrite
  rw [show (⟨m, c⟩ : LoweredState).module = m from rfl, hm.1]

theorem matchAndRewrite_creates (m : Module) (h : countRng m = 0)
    (c : Nat) (req : Request) :
    matchAndRewrite ⟨m, c⟩ req = some (emitBody (withRng m) c req) := by
  unfold matchAndRewrite
  rw [show (⟨m, c⟩ : LoweredState).module = m from rfl,
    lookup_eq_none_of_countRng_zero m h]
  rfl

theorem lowerAll_of_singleton (m : Module) (hm : rngSingleton m) :
    ∀ (reqs : List Request) (c : Nat),
      ∃ c', lowerAll ⟨m, c⟩ reqs = some ⟨m, c'⟩ := by
  intro reqs
  induction reqs with
  | nil => intro c; exact ⟨c, rfl⟩
  | cons r rs ih =>
    intro c
    obtain ⟨c', hc'⟩ := ih ((c + materializeDelta r.delta) % 2 ^ W)
    refine ⟨c', ?_⟩
    unfold lowerAll
    rw [matchAndRewrite_of_singleton m hm c r]
    exact hc'

theorem lowerAll_fresh (m : Module) (h : countRng m = 0) (r : Request)
    (rs : List Request) (c : Nat) :
    ∃ c', lowerAll ⟨m, c⟩ (r :: rs) = some ⟨withRng m, c'⟩ := by
  obtain ⟨c', hc'⟩ :=
    lowerAll_of_singleton (withRng m) (rngSingleton_withRng m h) rs
      ((c + materializeDelta r.delta) % 2 ^ W)
  refine ⟨c', ?_⟩
  unfold lowerAll
  rw [matchAndRewrite_creates m h c r]
  exact hc'

theorem emod_add_emod_left (a b n : Int) : (a % n + b) % n = (a + b) % n := by
  rw [Int.add_emod, Int.emod_emod_of_dvd a dvd_rfl, ← Int.add_emod]

theorem counter_step_int (old : Nat) (d : Int) :
    (((old + materializeDelta d) % 2 ^ W : Nat) : Int)
      = ((old : Int) + d % (2 ^ 64 : Int)) % (2 ^ W : Int) := by
  have h1 : 0 ≤ d % (18446744073709551616 : Int) :=
    Int.emod_nonneg d (by norm_num)
  unfold materializeDelta
  push_cast [Int.toNat_of_nonneg h1]
  rfl

theorem materializeDelta_cast (d : Int) :
    ((materializeDelta d : Nat) : Int) = d % (2 ^ 64 : Int) := by
  unfold materializeDelta
  exact Int.toNat_of_nonneg (Int.emod_nonneg d (by positivity))

theorem materializeDelta_lt64 (d : Int) : materializeDelta d < 2 ^ 64 := by
  have e64 : (2 : Int) ^ 64 = 18446744073709551616 := by norm_num
  have e64n : (2 : Nat) ^ 64 = 18446744073709551616 := by norm_num
  unfold materializeDelta
  rw [e64n, e64]
  omega

theorem materializeDelta_lt (d : Int) : materializeDelta d < 2 ^ W :=
  lt_of_lt_of_le (materializeDelta_lt64 d) (by norm_num [W])

theorem materializeDelta_of_nonneg (d : Int) (h0 : 0 ≤ d) (hhi : d < 2 ^ 63) :
    ((materializeDelta d : Nat) : Int) = d := by
  have e63 : (2 : Int) ^ 63 = 9223372036854775808 := by norm_num
  have e64 : (2 : Int) ^ 64 = 18446744073709551616 := by norm_num
  unfold materializeDelta
  rw [e64]
  rw [e63] at hhi
  omega

theorem materializeDelta_of_neg (d : Int) (hlo : -(2 ^ 63) ≤ d) (hneg : d < 0) :
    ((materializeDelta d : Nat) : Int) = d + 2 ^ 64 := by
  have e63 : (2 : Int) ^ 63 = 9223372036854775808 := by norm_num
  have e64 : (2 : Int) ^ 64 = 18446744073709551616 := by norm_num
  unfold materializeDelta
  rw [e64]
  rw [e63] at hlo
  omega

theorem counter_step_int_of_nonneg (old : Nat) (d : Int) (h0 : 0 ≤ d)
    (hhi : d < 2 ^ 63) :
    (((old + materializeDelta d) % 2 ^ W : Nat) : Int)
      = ((old : Int) + d) % (2 ^ W : Int) := by
  rw [counter_step_int]
  have hmod : d % (2 ^ 64 : Int) = d := by
    have e63 : (2 : Int) ^ 63 = 9223372036854775808 := by norm_num
    have e64 : (2 : Int) ^ 64 = 18446744073709551616 := by norm_num
    rw [e64]
    rw [e63] at hhi
    omega
  rw [hmod]

theorem matchAndRewrite_some_spec (st : LoweredState) (req : Request)
    (hcons : rngConsistent st.module) :
    ∃ m' g', matchAndRewrite st req = some (emitBody m' st.counter req) ∧
      lookupNearestSymbolFrom m' "rng_state" = some (Symbol.globalOp g') := by
  unfold matchAndRewrite
  rcases hcons with h | ⟨g, h⟩
  · rw [h]
    exact ⟨withRng st.module, rngGlobal, rfl, lookup_withRng st.module⟩
  · rw [h]
    exact ⟨st.module, g, rfl, h⟩

theorem emitBody_counter (m : Module) (c : Nat) (req : Request) :
    (emitBody m c req).counter = (c + materializeDelta req.delta) % 2 ^ W := rfl

theorem emitBody_oldVal (m : Module) (c : Nat) (req : Request) :
    (emitBody m c req).oldVal = c := rfl

theorem emitBody_module (m : Module) (c : Nat) (req : Request) :
    (emitBody m c req).module = m := rfl

theorem emitBody_returned (m : Module) (c : Nat) (req : Request) :
    (emitBody m c req).returned = pack c req.numElements req.wordSize := rfl

/-- C1: For every module and every number K ≥ 1 of lowered
`XlaRngGetAndUpdateState` requests, the pass leaves exactly one global
definition named `"rng_state"` in the module: the find-or-create step
creates the global only when a symbol of that name is not already found
(the final module is the initial one with exactly that one insertion), and
every later call resolves to that same existing definition rather than
creating a second one. -/
theorem claim1_singleton_rng_state (m : Module) (c : Nat)
    (reqs : List Request) (hK : reqs ≠ []) (h0 : countRng m = 0) :
    ∃ fin : LoweredState,
      lowerAll ⟨m, c⟩ reqs = some fin ∧
      fin.module = withRng m ∧
      countRng fin.module = 1 ∧
      lookupNearestSymbolFrom fin.module "rng_state"
        = some (Symbol.globalOp rngGlobal) := by
  cases reqs with
  | nil => exact absurd rfl hK
  | cons r rs =>
    obtain ⟨c', hc'⟩ := lowerAll_fresh m h0 r rs c
    exact ⟨⟨withRng m, c'⟩, hc', rfl, (rngSingleton_withRng m h0).2,
      lookup_withRng m⟩

/-- Witness for C1 at a concrete module and two requests. -/
theorem claim1_singleton_rng_state_witness :
    ∃ fin : LoweredState,
      lowerAll ⟨⟨[]⟩, 3⟩ [⟨5, 2, 64⟩, ⟨7, 1, 32⟩] = some fin ∧
      fin.module = withRng ⟨[]⟩ ∧
      countRng fin.module = 1 ∧
      lookupNearestSymbolFrom fin.module "rng_state"
        = some (Symbol.globalOp rngGlobal) :=
  claim1_singleton_rng_state ⟨[]⟩ 3 [⟨5, 2, 64⟩, ⟨7, 1, 32⟩]
    (List.cons_ne_nil _ _) rfl

/-- C7: Whenever the pass creates the counter global (first lowering in a
module), the created definition has name `"rng_state"`, private
visibility, integer width exactly 128 bits, and initial value exactly
`0x7012395`, and these attributes hold in the rewritten module regardless
of how many lowering requests were processed. -/
theorem claim7_created_global_attributes (m : Module) (c : Nat)
    (reqs : List Request) (hK : reqs ≠ []) (h0 : countRng m = 0) :
    ∃ (fin : LoweredState) (g : GlobalDef),
      lowerAll ⟨m, c⟩ reqs = some fin ∧
      lookupNearestSymbolFrom fin.module "rng_state"
        = some (Symbol.globalOp g) ∧
      g.name = "rng_state" ∧
      g.visibility = "private" ∧
      g.width = 128 ∧
      g.initialValue = 0x7012395 ∧
      countRng fin.module = 1 := by
  cases reqs with
  | nil => exact absurd rfl hK
  | cons r rs =>
    obtain ⟨c', hc'⟩ := lowerAll_fresh m h0 r rs c
    exact ⟨⟨withRng m, c'⟩, rngGlobal, hc', lookup_withRng m, rfl, rfl, rfl,
      rfl, (rngSingleton_withRng m h0).2⟩

/-- Witness for C7 at a concrete module and three requests. -/
theorem claim7_created_global_attributes_witness :
    ∃ (fin : LoweredState) (g : GlobalDef),
      lowerAll ⟨⟨[Symbol.otherSym "f"]⟩, 0⟩ [⟨1, 4, 32⟩, ⟨2, 1, 128⟩, ⟨3, 0, 8⟩]
        = some fin ∧
      lookupNearestSymbolFrom fin.module "rng_state"
        = some (Symbol.globalOp g) ∧
      g.name = "rng_state" ∧
      g.visibility = "private" ∧
      g.width = 128 ∧
      g.initialValue = 0x7012395 ∧
      countRng fin.module = 1 :=
  claim7_created_global_attributes ⟨[Symbol.otherSym "f"]⟩ 0
    [⟨1, 4, 32⟩, ⟨2, 1, 128⟩, ⟨3, 0, 8⟩] (List.cons_ne_nil _ _) (by decide)

/-- Counterexample to C2 as stated: at increment `delta = -3` (inside the
`int64_t` range the cast admits) the lowering's stored counter is
`old + 2^64 - 3 mod 2^128`, not `old + (-3) mod 2^128`: `getIntegerAttr`
zero-extends the 64-bit pattern into the signless `i128` constant. -/
theorem claim2_counterexample :
    matchAndRewrite ⟨⟨[Symbol.globalOp rngGlobal]⟩, 0⟩ ⟨-3, 1, 64⟩
      = some (emitBody ⟨[Symbol.globalOp rngGlobal]⟩ 0 ⟨-3, 1, 64⟩) ∧
    (emitBody ⟨[Symbol.globalOp rngGlobal]⟩ 0 ⟨-3, 1, 64⟩).counter
      = 2 ^ 64 - 3 ∧
    (((emitBody ⟨[Symbol.globalOp rngGlobal]⟩ 0 ⟨-3, 1, 64⟩).counter : Nat)
        : Int)
      ≠ (((0 : Nat) : Int) + -3) % (2 ^ W : Int) :=
  ⟨rfl, by decide, by decide⟩

/-- C2 (amended): For every lowering with counter value `old_value` and
nonnegative increment `delta` (`0 ≤ delta < 2^63`), the emitted
instruction sequence first loads the counter, then stores
`old_value + delta` computed with wraparound (modulo `2^128`) addition,
and the value produced for the request is `old_value`, the value before
this call's increment; the load precedes the store in the emitted order.
(For negative `int64_t` increments the stored value is
`old_value + delta + 2^64 mod 2^128`, because the signless `i128`
`getIntegerAttr` zero-extends the 64-bit pattern; see the
counterexample.) -/
theorem claim2_load_then_store_returns_old (st : LoweredState) (req : Request)
    (hcons : rngConsistent st.module)
    (hlo : 0 ≤ req.delta) (hhi : req.delta < 2 ^ 63) :
    ∃ ld : Lowered,
      matchAndRewrite st req = some ld ∧
      ld.oldVal = st.counter ∧
      ((ld.counter : Nat) : Int)
        = ((st.counter : Int) + req.delta) % (2 ^ W : Int) ∧
      ld.returned = pack st.counter req.numElements req.wordSize ∧
      ∃ i j : Nat, i < j ∧ ld.trace.get? i = some Op.load ∧
        ld.trace.get? j = some Op.store := by
  obtain ⟨m', g', heq, hg⟩ := matchAndRewrite_some_spec st req hcons
  refine ⟨emitBody m' st.counter req, heq, rfl, ?_, rfl,
    1, 4, by omega, rfl, rfl⟩
  rw [emitBody_counter]
  exact counter_step_int_of_nonneg st.counter req.delta hlo hhi

/-- Witness for C2 at a concrete state and request. -/
theorem claim2_load_then_store_returns_old_witness :
    ∃ ld : Lowered,
      matchAndRewrite ⟨⟨[Symbol.globalOp rngGlobal]⟩, 9⟩ ⟨5, 2, 64⟩
        = some ld ∧
      ld.oldVal = 9 ∧
      ((ld.counter : Nat) : Int) = ((9 : Int) + 5) % (2 ^ W : Int) ∧
      ld.returned = pack 9 2 64 ∧
      ∃ i j : Nat, i < j ∧ ld.trace.get? i = some Op.load ∧
        ld.trace.get? j = some Op.store :=
  claim2_load_then_store_returns_old ⟨⟨[Symbol.globalOp rngGlobal]⟩, 9⟩
    ⟨5, 2, 64⟩ (Or.inr ⟨rngGlobal, rfl⟩) (by decide) (by decide)

/-- Counterexample to C4 as stated: for `delta = -3`, a value representable
in 128 bits and inside the `int64_t` range the cast admits, the
materialized constant is `2^64 - 3` — not equal to `-3` under the
counter's 128-bit two's-complement reading (that would be `2^128 - 3`) —
and the stored value is `old + 2^64 - 3 mod 2^128`, not
`old - 3 mod 2^128`. -/
theorem claim4_counterexample :
    materializeDelta (-3) = 2 ^ 64 - 3 ∧
    toSigned128 (materializeDelta (-3)) ≠ -3 ∧
    (((emitBody ⟨[]⟩ 0 ⟨-3, 1, 64⟩).counter : Nat) : Int)
      ≠ (((0 : Nat) : Int) + -3) % (2 ^ W : Int) :=
  ⟨by decide, by decide, by decide⟩

/-- C4 (amended): For every `int64_t` increment `delta` (the only
increments that can reach this code, by the `static_cast<int64_t>` in the
source), the constant materialized for the addition is the 128-bit
zero-extension of `delta`'s 64-bit pattern, `delta mod 2^64` — exactly
`delta` when `0 ≤ delta < 2^63`, in which case the stored new value equals
`old_value + delta mod 2^128`, and `delta + 2^64` when `delta < 0`, in
which case the stored value is `old_value + delta + 2^64 mod 2^128` —
because `getIntegerAttr` on the signless `i128` zero-extends rather than
sign-extends the `int64_t`. -/
theorem claim4_delta_constant_zext (m : Module) (c : Nat) (req : Request)
    (hlo : -(2 ^ 63) ≤ req.delta) (hhi : req.delta < 2 ^ 63) :
    (emitBody m c req).trace.get? 2
      = some (Op.constOp W (materializeDelta req.delta)) ∧
    materializeDelta req.delta < 2 ^ W ∧
    ((materializeDelta req.delta : Nat) : Int)
      = req.delta % (2 ^ 64 : Int) ∧
    (0 ≤ req.delta →
      toSigned128 (materializeDelta req.delta) = req.delta ∧
      (((emitBody m c req).counter : Nat) : Int)
        = ((c : Int) + req.delta) % (2 ^ W : Int)) ∧
    (req.delta < 0 →
      ((materializeDelta req.delta : Nat) : Int) = req.delta + 2 ^ 64 ∧
      (((emitBody m c req).counter : Nat) : Int)
        = ((c : Int) + req.delta + 2 ^ 64) % (2 ^ W : Int)) := by
  refine ⟨rfl, materializeDelta_lt req.delta, materializeDelta_cast req.delta,
    fun h0 => ⟨?_, ?_⟩,
    fun hneg => ⟨materializeDelta_of_neg req.delta hlo hneg, ?_⟩⟩
  · unfold toSigned128
    rw [if_pos (lt_trans (materializeDelta_lt64 req.delta) (by norm_num))]
    exact materializeDelta_of_nonneg req.delta h0 hhi
  · rw [emitBody_counter]
    exact counter_step_int_of_nonneg c req.delta h0 hhi
  · rw [emitBody_counter, counter_step_int]
    have hmod : req.delta % (2 ^ 64 : Int) = req.delta + 2 ^ 64 := by
      have e63 : (2 : Int) ^ 63 = 9223372036854775808 := by norm_num
      have e64 : (2 : Int) ^ 64 = 18446744073709551616 := by norm_num
      rw [e64]
      rw [e63] at hlo
      omega
    rw [hmod, ← add_assoc]

/-- Witness for the amended C4 at the concrete increment `-3`, exercising
the zero-extension path. -/
theorem claim4_delta_constant_zext_witness :
    (emitBody ⟨[]⟩ 0 ⟨-3, 1, 64⟩).trace.get? 2
      = some (Op.constOp W (materializeDelta (-3))) ∧
    materializeDelta (-3) < 2 ^ W ∧
    ((materializeDelta (-3) : Nat) : Int) = (-3) % (2 ^ 64 : Int) ∧
    (0 ≤ (-3 : Int) →
      toSigned128 (materializeDelta (-3)) = -3 ∧
      (((emitBody ⟨[]⟩ 0 ⟨-3, 1, 64⟩).counter : Nat) : Int)
        = ((0 : Int) + -3) % (2 ^ W : Int)) ∧
    ((-3 : Int) < 0 →
      ((materializeDelta (-3) : Nat) : Int) = -3 + 2 ^ 64 ∧
      (((emitBody ⟨[]⟩ 0 ⟨-3, 1, 64⟩).counter : Nat) : Int)
        = ((0 : Int) + -3 + 2 ^ 64) % (2 ^ W : Int)) :=
  claim4_delta_constant_zext ⟨[]⟩ 0 ⟨-3, 1, 64⟩ (by decide) (by decide)

/-- Counterexample to C5 as stated: starting from V0 = `0x7012395` with
`d1 = -3`, the first lowering leaves the counter at
`V0 + 2^64 - 3 mod 2^128`, not `(V0 - 3) mod 2^128` as the claim's
formula requires: the delta constant is the zero-extension of the
64-bit pattern. -/
theorem claim5_counterexample :
    matchAndRewrite ⟨⟨[]⟩, 0x7012395⟩ ⟨-3, 2, 64⟩
      = some (emitBody (withRng ⟨[]⟩) 0x7012395 ⟨-3, 2, 64⟩) ∧
    (((emitBody (withRng ⟨[]⟩) 0x7012395 ⟨-3, 2, 64⟩).counter : Nat) : Int)
      ≠ (((0x7012395 : Nat) : Int) + -3) % (2 ^ W : Int) :=
  ⟨rfl, by decide⟩

/-- C5 (amended): For every initial counter value V0 and every pair of
nonnegative increments `d1, d2 < 2^63`, applying two sequential lowerings
with deltas d1 then d2 yields: the first lowering returns V0 and leaves
the counter holding `(V0 + d1) mod 2^128`, and the second returns
`(V0 + d1) mod 2^128` and leaves the counter holding
`(V0 + d1 + d2) mod 2^128`. (For negative increments the counter instead
advances by `d + 2^64`, the zero-extension of the 64-bit pattern; see the
counterexample.) -/
theorem claim5_value_threading (st : LoweredState) (d1 d2 : Int)
    (n1 w1 n2 w2 : Nat) (hcons : rngConsistent st.module)
    (h1lo : 0 ≤ d1) (h1hi : d1 < 2 ^ 63)
    (h2lo : 0 ≤ d2) (h2hi : d2 < 2 ^ 63) :
    ∃ ld1 ld2 : Lowered,
      matchAndRewrite st ⟨d1, n1, w1⟩ = some ld1 ∧
      ld1.oldVal = st.counter ∧
      ((ld1.counter : Nat) : Int)
        = ((st.counter : Int) + d1) % (2 ^ W : Int) ∧
      matchAndRewrite ⟨ld1.module, ld1.counter⟩ ⟨d2, n2, w2⟩ = some ld2 ∧
      ((ld2.oldVal : Nat) : Int)
        = ((st.counter : Int) + d1) % (2 ^ W : Int) ∧
      ((ld2.counter : Nat) : Int)
        = ((st.counter : Int) + d1 + d2) % (2 ^ W : Int) := by
  obtain ⟨m1, g1, heq1, hg1⟩ := matchAndRewrite_some_spec st ⟨d1, n1, w1⟩ hcons
  obtain ⟨m2, g2, heq2, hg2⟩ :=
    matchAndRewrite_some_spec
      ⟨(emitBody m1 st.counter ⟨d1, n1, w1⟩).module,
        (emitBody m1 st.counter ⟨d1, n1, w1⟩).counter⟩
      ⟨d2, n2, w2⟩ (Or.inr ⟨g1, hg1⟩)
  refine ⟨emitBody m1 st.counter ⟨d1, n1, w1⟩,
    emitBody m2 (emitBody m1 st.counter ⟨d1, n1, w1⟩).counter ⟨d2, n2, w2⟩,
    heq1, rfl, ?_, heq2, ?_, ?_⟩
  · rw [emitBody_counter]
    exact counter_step_int_of_nonneg st.counter d1 h1lo h1hi
  · rw [emitBody_oldVal, emitBody_counter]
    exact counter_step_int_of_nonneg st.counter d1 h1lo h1hi
  · rw [emitBody_counter, emitBody_counter,
      counter_step_int_of_nonneg _ d2 h2lo h2hi,
      counter_step_int_of_nonneg _ d1 h1lo h1hi, emod_add_emod_left]

/-- Witness for C5: the spec's two concrete scenarios chained: fresh module,
counter `0x7012395`, deltas `5` then `0xFFFFFFFF`. -/
theorem claim5_value_threading_witness :
    ∃ ld1 ld2 : Lowered,
      matchAndRewrite ⟨⟨[]⟩, 0x7012395⟩ ⟨5, 2, 64⟩ = some ld1 ∧
      ld1.oldVal = 0x7012395 ∧
      ((ld1.counter : Nat) : Int)
        = (((0x7012395 : Nat) : Int) + 5) % (2 ^ W : Int) ∧
      matchAndRewrite ⟨ld1.module, ld1.counter⟩ ⟨0xFFFFFFFF, 1, 128⟩
        = some ld2 ∧
      ((ld2.oldVal : Nat) : Int)
        = (((0x7012395 : Nat) : Int) + 5) % (2 ^ W : Int) ∧
      ((ld2.counter : Nat) : Int)
        = (((0x7012395 : Nat) : Int) + 5 + 0xFFFFFFFF) % (2 ^ W : Int) :=
  claim5_value_threading ⟨⟨[]⟩, 0x7012395⟩ 5 0xFFFFFFFF 2 64 1 128
    (Or.inl rfl) (by decide) (by decide) (by decide) (by decide)

/-- C3: For every 128-bit value, every element count N in `{0,1,2,4}` and
element width E in `{8,16,32,64}` with `N*E ≤ 128`, the packed output is
the N-element sequence whose element j (0-based, most-significant first)
equals `(value >> ((N-1-j)*E))` truncated to E bits, so the concatenation
of the elements most-significant-first equals the low `N*E` bits of the
value. -/
theorem claim3_packing_correct (value N E : Nat) (hv : value < 2 ^ W)
    (hN : N = 0 ∨ N = 1 ∨ N = 2 ∨ N = 4)
    (hE : E = 8 ∨ E = 16 ∨ E = 32 ∨ E = 64)
    (hNE : N * E ≤ W) :
    (∀ j, j < N →
      (pack value N E)[j]? = some ((value >>> ((N - 1 - j) * E)) % 2 ^ E)) ∧
    concatMSF E (pack value N E) = value % 2 ^ (N * E) :=
  ⟨fun j hj => pack_getElem? value E N j hj, concatMSF_pack value N E⟩

/-- Witness for C3 at the spec's concrete scenario `N = 2`, `E = 64`. -/
theorem claim3_packing_correct_witness :
    (∀ j, j < 2 →
      (pack 0x7012395 2 64)[j]?
        = some ((0x7012395 >>> ((2 - 1 - j) * 64)) % 2 ^ 64)) ∧
    concatMSF 64 (pack 0x7012395 2 64) = 0x7012395 % 2 ^ (2 * 64) :=
  claim3_packing_correct 0x7012395 2 64 (by decide)
    (Or.inr (Or.inr (Or.inl rfl))) (Or.inr (Or.inr (Or.inr rfl))) (by decide)

/-- C6: For every N and E with `N*E < 128`, and for any two 128-bit values
that agree on their low `N*E` bits, the packed outputs are identical: bits
of the input at positions ≥ `N*E` have no influence on any element of the
packed output. -/
theorem claim6_truncation (N E v1 v2 : Nat) (hNE : N * E < W)
    (h : v1 % 2 ^ (N * E) = v2 % 2 ^ (N * E)) :
    pack v1 N E = pack v2 N E :=
  pack_congr E N v1 v2 h

/-- Witness for C6: `0x7012395` and `0x95` agree on their low 8 bits, and
pack to the same single `i8` element. -/
theorem claim6_truncation_witness :
    pack 0x7012395 1 8 = pack 0x95 1 8 :=
  claim6_truncation 1 8 0x7012395 0x95 (by decide) (by decide)

/-- C8: For element count N = 0 (and any element width E > 0), the packing
loop executes zero times and the packed result is an empty sequence of
elements (and no packing ops are emitted). -/
theorem claim8_zero_elements (value E : Nat) (hE : 0 < E) :
    pack value 0 E = [] ∧ (pack value 0 E).length = 0 ∧ packTrace 0 E = [] :=
  ⟨rfl, rfl, rfl⟩

/-- Witness for C8 at `value = 5`, `E = 8`. -/
theorem claim8_zero_elements_witness :
    pack 5 0 8 = [] ∧ (pack 5 0 8).length = 0 ∧ packTrace 0 8 = [] :=
  claim8_zero_elements 5 8 (by decide)

/-- C9: If a symbol named `rng_state` already exists in the module but is
not a memref global, the transformation aborts immediately (the `assert`,
modelled as the `none` outcome) rather than proceeding; under the
precondition that any existing `rng_state` symbol is a memref global, this
abort branch is unreachable (the lowering always completes). -/
theorem claim9_assert_foreign_symbol (st : LoweredState) (req : Request) :
    (∀ nm, lookupNearestSymbolFrom st.module "rng_state"
        = some (Symbol.otherSym nm) →
      matchAndRewrite st req = none) ∧
    (rngConsistent st.module → (matchAndRewrite st req).isSome = true) := by
  constructor
  · intro nm h
    unfold matchAndRewrite
    rw [h]
  · intro hcons
    obtain ⟨m', g', heq, hg⟩ := matchAndRewrite_some_spec st req hcons
    rw [heq]
    rfl

/-- Witness for C9: a module whose `rng_state` symbol is a function-like op
aborts; a module whose `rng_state` symbol is a global completes. -/
theorem claim9_assert_foreign_symbol_witness :
    matchAndRewrite ⟨⟨[Symbol.otherSym "rng_state"]⟩, 0⟩ ⟨1, 1, 32⟩
        = none ∧
    (matchAndRewrite ⟨⟨[Symbol.globalOp rngGlobal]⟩, 0⟩ ⟨1, 1, 32⟩).isSome
        = true :=
  ⟨(claim9_assert_foreign_symbol ⟨⟨[Symbol.otherSym "rng_state"]⟩, 0⟩
      ⟨1, 1, 32⟩).1 "rng_state" (by decide),
   (claim9_assert_foreign_symbol ⟨⟨[Symbol.globalOp rngGlobal]⟩, 0⟩
      ⟨1, 1, 32⟩).2 (Or.inr ⟨rngGlobal, rfl⟩)⟩

/-- C10: For every matched XlaRngGetAndUpdateState instruction,
matchAndRewrite returns success unconditionally: every completed run of the
function produces `LogicalResult.success`, so the Failed terminal state of
the lowering pattern is unreachable once an instruction has matched. -/
theorem claim10_always_success (st : LoweredState) (req : Request)
    (ld : Lowered) (h : matchAndRewrite st req = some ld) :
    ld.result = LogicalResult.success := by
  unfold matchAndRewrite at h
  cases hl : lookupNearestSymbolFrom st.module "rng_state" with
  | none =>
      rw [hl] at h
      injection h with h
      rw [← h]
      exact rfl
  | some s =>
      cases s with
      | globalOp g =>
          rw [hl] at h
          injection h with h
          rw [← h]
          exact rfl
      | otherSym nm =>
          rw [hl] at h
          exact Option.noConfusion h

/-- Witness for C10 at a concrete module, counter and request. -/
theorem claim10_always_success_witness :
    (emitBody ⟨[Symbol.globalOp rngGlobal]⟩ 4 ⟨2, 1, 64⟩).result
      = LogicalResult.success :=
  claim10_always_success ⟨⟨[Symbol.globalOp rngGlobal]⟩, 4⟩ ⟨2, 1, 64⟩
    (emitBody ⟨[Symbol.globalOp rngGlobal]⟩ 4 ⟨2, 1, 64⟩) rfl

end HloToArith
